import Mathlib

/-!
Verification of the DFS (distributed file system) node, `src/DFS/main.go`,
against its natural-language specification.

The embedding below translates the Go source into Lean:

* Go byte slices and strings become `List Byte` with `Byte := Fin 256`.
* `encodeCommand` / `decodeCommand` are translated statement by statement;
  a Go runtime panic inside `decodeCommand` (indexing into the empty slice
  returned by `buf.Next(1)` on empty input, or `buf.Next` called with a
  negative count after the `uint64 → int` conversion of a length field
  at or above 2^63) is modelled as `none`.
* `binary.Read` into a `uint64` is `readLE64`: with at least 8 bytes it
  consumes 8 bytes little-endian; with fewer it drains the buffer, reports
  an error that the Go code ignores, and leaves the target at its zero
  value, so the parsed value is 0 and the rest is empty.
* The `sync.Map` of the state machine becomes a function
  `FileTable := List Byte → Option File`; `Store` and `Delete` become
  pointwise updates. `time.Now()` is modelled by an explicit clock
  argument `now : Nat`.
* The HTTP handlers become pure functions over an explicit node state,
  with the raft engine (leadership hint, Propose outcome, follower
  roster) and per-peer reachability supplied as oracle arguments.
-/

namespace DFS

/-- A byte, the element type of Go byte slices and strings. -/
abbrev Byte := Fin 256

/-- Little-endian encoding of a `uint64` value into 8 bytes, as produced by
`binary.Write(msg, binary.LittleEndian, v)` in `encodeCommand`.
The numeral 18446744073709551616 is 2^64. -/
def toLE64 (n : Nat) : List Byte :=
  [⟨n % 256, by omega⟩,
   ⟨n / 256 % 256, by omega⟩,
   ⟨n / 65536 % 256, by omega⟩,
   ⟨n / 16777216 % 256, by omega⟩,
   ⟨n / 4294967296 % 256, by omega⟩,
   ⟨n / 1099511627776 % 256, by omega⟩,
   ⟨n / 281474976710656 % 256, by omega⟩,
   ⟨n / 72057594037927936 % 256, by omega⟩]

/-- The value of a little-endian byte sequence. -/
def fromLE (l : List Byte) : Nat :=
  l.foldr (fun b acc => b.val + 256 * acc) 0

/-- `binary.Read(buf, binary.LittleEndian, &v)` for a `uint64` target in
`decodeCommand`: with at least 8 bytes available it reads them; otherwise
`io.ReadFull` drains the buffer and returns an error that the Go code
ignores, leaving `v` at its zero value. -/
def readLE64 (l : List Byte) : Nat × List Byte :=
  if 8 ≤ l.length then (fromLE (l.take 8), l.drop 8) else (0, [])

/-- `CreateFile commandKind = iota` (value 0). -/
def CreateFile : Byte := 0

/-- `DeleteFile` (value 1). -/
def DeleteFile : Byte := 1

/-- `RenameFile` (value 2). -/
def RenameFile : Byte := 2

/-- The `command` struct: `Kind commandKind; Path, OldPath, NewPath string;
Size int64`. `Size` is an `Int` constrained to the int64 range where the
claims need it. -/
structure command where
  Kind : Byte
  Path : List Byte
  OldPath : List Byte
  NewPath : List Byte
  Size : Int
deriving DecidableEq, Repr

/-- `encodeCommand`: one tag byte, then an 8-byte little-endian length
prefix and the raw bytes for each of `Path`, `OldPath`, `NewPath`, then
the 8-byte `uint64(c.Size)` (two's complement of the int64, that is
`c.Size` modulo 2^64). -/
def encodeCommand (c : command) : List Byte :=
  [c.Kind] ++
  toLE64 c.Path.length ++ c.Path ++
  toLE64 c.OldPath.length ++ c.OldPath ++
  toLE64 c.NewPath.length ++ c.NewPath ++
  toLE64 (c.Size % 18446744073709551616).toNat

/-- The `int64(size)` conversion of a `uint64`: values at or above 2^63
wrap to negatives. 9223372036854775808 is 2^63. -/
def toInt64 (n : Nat) : Int :=
  if n < 9223372036854775808 then (n : Int) else (n : Int) - 18446744073709551616

/-- `decodeCommand`: reads the tag byte, then for each string field an
8-byte length followed by that many bytes (`buf.Next` silently clamps to
the bytes remaining), then the size field. `none` models a Go runtime
panic: `buf.Next(1)[0]` indexes an empty slice when the input is empty,
and `buf.Next(int(len))` slices with a negative bound when a declared
length is at or above 2^63 (negative after the `uint64 → int`
conversion). No other input makes `decodeCommand` fail. -/
def decodeCommand (msg : List Byte) : Option command :=
  match msg with
  | [] => none
  | tag :: rest =>
    let p1 := readLE64 rest
    if 9223372036854775808 ≤ p1.1 then none else
    let path := p1.2.take p1.1
    let r1 := p1.2.drop p1.1
    let p2 := readLE64 r1
    if 9223372036854775808 ≤ p2.1 then none else
    let oldPath := p2.2.take p2.1
    let r2 := p2.2.drop p2.1
    let p3 := readLE64 r2
    if 9223372036854775808 ≤ p3.1 then none else
    let newPath := p3.2.take p3.1
    let r3 := p3.2.drop p3.1
    let p4 := readLE64 r3
    some ⟨tag, path, oldPath, newPath, toInt64 p4.1⟩

/-- The `File` struct: `Name string; Size int64; LastModified time.Time`.
The timestamp is the value of the explicit clock at the `Apply` call. -/
structure File where
  Name : List Byte
  Size : Int
  LastModified : Nat
deriving DecidableEq, Repr

/-- The `sync.Map` of `DFSStateMachine.files`, as a mapping path → record. -/
def FileTable := List Byte → Option File

/-- `files.Store(p, f)`. -/
def tableStore (p : List Byte) (f : File) (t : FileTable) : FileTable :=
  fun q => if q = p then some f else t q

/-- `files.Delete(p)`. -/
def tableDelete (p : List Byte) (t : FileTable) : FileTable :=
  fun q => if q = p then none else t q

/-- The empty table a node starts with (`NewDFSStateMachine`). -/
def emptyTable : FileTable := fun _ => none

/-- `DFSStateMachine.Apply(cmd)`: decodes and dispatches on the kind.
CreateFile stores a fresh record at `Path`; DeleteFile deletes `Path`;
RenameFile deletes `OldPath` and then stores a fresh record at `NewPath`;
any other kind returns the "unknown command" error. The new table stands
in for the mutation of the receiver; `none` is a panic propagated from
`decodeCommand`; `now` models `time.Now()`. -/
def Apply (now : Nat) (t : FileTable) (cmd : List Byte) :
    Option (Except String FileTable) :=
  (decodeCommand cmd).map fun c =>
    if c.Kind = CreateFile then
      Except.ok (tableStore c.Path ⟨c.Path, c.Size, now⟩ t)
    else if c.Kind = DeleteFile then
      Except.ok (tableDelete c.Path t)
    else if c.Kind = RenameFile then
      Except.ok (tableStore c.NewPath ⟨c.NewPath, c.Size, now⟩ (tableDelete c.OldPath t))
    else
      Except.error "unknown command"

/-- Sequential application of committed entries in delivery order, the
way the consensus engine drives `Apply` on each node; the clock ticks
once per entry. The first panic or error stops the run. -/
def applyList (now : Nat) (t : FileTable) :
    List (List Byte) → Option (Except String FileTable)
  | [] => some (Except.ok t)
  | cmd :: rest =>
    match Apply now t cmd with
    | some (Except.ok t2) => applyList (now + 1) t2 rest
    | r => r

/-- Looks a path up in the table an application run produced; `none` when
the run panicked or errored. -/
def lookupResult (r : Option (Except String FileTable)) (p : List Byte) :
    Option (Option File) :=
  match r with
  | some (Except.ok t) => some (t p)
  | _ => none

/-- `filepath.Base` for slash-separated paths (the handlers key the local
content store by `filepath.Base(filePath)`): empty path gives ".",
trailing separators are stripped, everything up to the last separator is
dropped, and a path of only separators gives "/". 46 is the dot and 47
the slash byte. -/
def base (p : List Byte) : List Byte :=
  if p = [] then [46]
  else
    let q := (p.reverse.dropWhile (fun b => decide (b = 47))).reverse
    let r := (q.reverse.takeWhile (fun b => decide (b ≠ 47))).reverse
    if r = [] then [47] else r

/-- The per-node content store: one regular file per key under the data
directory, keyed by the final path segment. -/
def ContentStore := List Byte → Option (List Byte)

/-- Creating (or overwriting) the file at a key with the given bytes. -/
def storeInsert (k v : List Byte) (s : ContentStore) : ContentStore :=
  fun q => if q = k then some v else s q

/-- A node with no content files. -/
def emptyStore : ContentStore := fun _ => none

/-- The node-local state the HTTP handlers touch: the metadata table of
the state machine and the content store in the data directory. -/
structure Node where
  table : FileTable
  store : ContentStore

/-- `replicateToFollowers`: one concurrent push per follower; the
per-peer outcome (`true` = the HTTP push succeeded, `false` = refused
connection, timeout or request error) is only logged. The returned list
is that log; reachability is an oracle. -/
def replicateToFollowers (followers : List Nat) (reach : Nat → Bool) :
    List (Nat × Bool) :=
  followers.map fun f => (f, reach f)

/-- The outcome of one `createFileHandler` call: HTTP status and message,
the node state afterwards, the commands submitted to `raft.Apply`, and
the per-peer push log. The message of the 201 response elides the
`fmt.Fprintf` arguments (path and byte count). -/
structure CreateResult where
  status : Nat
  msg : String
  node : Node
  proposed : List (List Byte)
  pushResults : List (Nat × Bool)

/-- `createFileHandler` on a POST request, translated in source order:
reject with 503 unless the leadership hint holds; create and write the
local content file (keyed by `filepath.Base`); build the CreateFile
command with the written byte count; submit it to `raft.Apply`, and on
error reply 500 — the local content file has already been written; on
success push the content to every follower and reply 201. `isLeader` is
the `hs.raft.IsLeader()` hint and `proposeFails` the outcome of
`hs.raft.Apply` (a stale hint means the two can disagree). -/
def createFileHandler (isLeader : Bool) (proposeFails : Bool)
    (followers : List Nat) (reach : Nat → Bool) (node : Node)
    (filePath body : List Byte) : CreateResult :=
  if !isLeader then
    ⟨503, "Not the leader - try another node", node, [], []⟩
  else
    let node2 : Node := ⟨node.table, storeInsert (base filePath) body node.store⟩
    let cmd := encodeCommand ⟨CreateFile, filePath, [], [], (body.length : Int)⟩
    if proposeFails then
      ⟨500, "Failed to replicate file metadata", node2, [cmd], []⟩
    else
      ⟨201, "File created and replicated successfully", node2, [cmd],
        replicateToFollowers followers reach⟩

/-- The reply of `getFileHandler`: an `http.Error` with status and
message, or the content bytes copied to the response. -/
inductive FetchResult where
  | httpError (status : Nat) (msg : String)
  | content (data : List Byte)
deriving DecidableEq, Repr

/-- `getFileHandler`: 404 "File not found" when the path is absent from
the FileTable; otherwise 404 "File content not found on this node" when
no local content file exists under the base key (`os.Stat` reports
not-exist); otherwise the file bytes. The 500 branch for an `os.Open`
failure right after a successful stat cannot arise in this
one-state-at-a-time model. -/
def getFileHandler (t : FileTable) (s : ContentStore) (filePath : List Byte) :
    FetchResult :=
  match t filePath with
  | none => FetchResult.httpError 404 "File not found"
  | some _ =>
    match s (base filePath) with
    | none => FetchResult.httpError 404 "File content not found on this node"
    | some data => FetchResult.content data

/-- The content-store states a concurrent reader can observe while
`createFileHandler` (or `replicateFileHandler`) writes content:
`os.Create(dataFilePath)` truncates the visible file in place to empty,
then the body is written into it. The write is not
write-temporary-then-rename, so the truncated intermediate state is
observable between the two steps. -/
def contentWriteStates (s : ContentStore) (key body : List Byte) :
    List ContentStore :=
  [s, storeInsert key [] s, storeInsert key body s]

/-- The length-prefix encoding always occupies exactly 8 bytes. -/
lemma toLE64_length (n : Nat) : (toLE64 n).length = 8 := rfl

/-- Reading back the 8 little-endian bytes of a value recovers it modulo
2^64. -/
lemma fromLE_toLE64 (n : Nat) : fromLE (toLE64 n) = n % 18446744073709551616 := by
  simp only [fromLE, toLE64, List.foldr]
  omega

/-- `readLE64` on a buffer that starts with an encoded 8-byte value reads
exactly that value and leaves the rest. -/
lemma readLE64_toLE64_append (n : Nat) (rest : List Byte) :
    readLE64 (toLE64 n ++ rest) = (n % 18446744073709551616, rest) := by
  have hlen : 8 ≤ (toLE64 n ++ rest).length := by
    rw [List.length_append, toLE64_length]; omega
  simp only [readLE64, if_pos hlen]
  rw [show (8 : Nat) = (toLE64 n).length from rfl, List.take_left, List.drop_left,
    fromLE_toLE64]

/-- Decoding an encoded command followed by arbitrary extra bytes yields
the command back, for every command a Go caller can construct: string
lengths below 2^63 (the Go `int` bound) and a nonnegative int64 size.
The trailing bytes are never examined. -/
lemma decode_encodeCommand_append (c : command) (s : List Byte)
    (hp : c.Path.length < 9223372036854775808)
    (ho : c.OldPath.length < 9223372036854775808)
    (hn : c.NewPath.length < 9223372036854775808)
    (hs0 : 0 ≤ c.Size) (hs1 : c.Size < 9223372036854775808) :
    decodeCommand (encodeCommand c ++ s) = some c := by
  have hsz : (c.Size % 18446744073709551616).toNat = c.Size.toNat := by
    rw [Int.emod_eq_of_lt hs0 (by omega)]
  have hszlt : c.Size.toNat < 9223372036854775808 := by omega
  have hp64 : c.Path.length % 18446744073709551616 = c.Path.length :=
    Nat.mod_eq_of_lt (by omega)
  have ho64 : c.OldPath.length % 18446744073709551616 = c.OldPath.length :=
    Nat.mod_eq_of_lt (by omega)
  have hn64 : c.NewPath.length % 18446744073709551616 = c.NewPath.length :=
    Nat.mod_eq_of_lt (by omega)
  have hsz64 : c.Size.toNat % 18446744073709551616 = c.Size.toNat :=
    Nat.mod_eq_of_lt (by omega)
  simp only [encodeCommand, List.append_assoc, List.cons_append, List.nil_append]
  simp only [decodeCommand, readLE64_toLE64_append, hsz, hp64, ho64, hn64, hsz64,
    List.take_left, List.drop_left, hp.not_le, ho.not_le, hn.not_le,
    if_false, ite_false]
  simp [toInt64, hszlt, Int.toNat_of_nonneg hs0]

/-- Claim C1: for every constructible command (any of the three variants,
empty strings allowed, any nonnegative int64 size, string lengths within
the Go int range), decoding the encoding yields a command equal in all
fields to the original. -/
theorem codec_roundtrip (c : command)
    (hp : c.Path.length < 9223372036854775808)
    (ho : c.OldPath.length < 9223372036854775808)
    (hn : c.NewPath.length < 9223372036854775808)
    (hs0 : 0 ≤ c.Size) (hs1 : c.Size < 9223372036854775808) :
    decodeCommand (encodeCommand c) = some c := by
  have h := decode_encodeCommand_append c [] hp ho hn hs0 hs1
  simpa using h

/-- Witness for C1 at a concrete rename command. -/
theorem codec_roundtrip_witness :
    decodeCommand (encodeCommand ⟨RenameFile, [97], [98, 99], [120], 5⟩) =
      some ⟨RenameFile, [97], [98, 99], [120], 5⟩ :=
  codec_roundtrip ⟨RenameFile, [97], [98, 99], [120], 5⟩
    (by decide) (by decide) (by decide) (by decide) (by decide)

/-- Claim C10: appending arbitrary bytes after a well-formed encoded
record does not change what decodes: the trailing garbage is silently
ignored, so an exact record and one with trailing data are
indistinguishable to the codec. -/
theorem decode_ignores_trailing (c : command) (s : List Byte)
    (hp : c.Path.length < 9223372036854775808)
    (ho : c.OldPath.length < 9223372036854775808)
    (hn : c.NewPath.length < 9223372036854775808)
    (hs0 : 0 ≤ c.Size) (hs1 : c.Size < 9223372036854775808) :
    decodeCommand (encodeCommand c ++ s) = some c :=
  decode_encodeCommand_append c s hp ho hn hs0 hs1

/-- Witness for C10: a create command with three bytes of garbage
appended still decodes to the command itself. -/
theorem decode_ignores_trailing_witness :
    decodeCommand (encodeCommand ⟨CreateFile, [97], [], [], 7⟩ ++ [255, 0, 1]) =
      some ⟨CreateFile, [97], [], [], 7⟩ :=
  decode_ignores_trailing ⟨CreateFile, [97], [], [], 7⟩ [255, 0, 1]
    (by decide) (by decide) (by decide) (by decide) (by decide)

/-- A little-endian value whose bytes all stay below 128 is small: twice
the value is below 256 to the number of bytes. -/
lemma two_mul_fromLE_lt (l : List Byte) (h : ∀ b ∈ l, b.val < 128) :
    2 * fromLE l < 256 ^ l.length := by
  induction l with
  | nil => simp [fromLE]
  | cons b t ih =>
    have hb : b.val < 128 := h b (List.mem_cons_self b t)
    have ht := ih (fun x hx => h x (List.mem_cons_of_mem b hx))
    rw [show fromLE (b :: t) = b.val + 256 * fromLE t from rfl,
      List.length_cons, pow_succ]
    revert ht
    generalize 256 ^ t.length = k
    intro ht
    omega

/-- A length field parsed from bytes below 128 stays below 2^63, the
bound at which the `uint64 → int` conversion in `decodeCommand` would
turn negative. -/
lemma readLE64_fst_lt_of_small (l : List Byte) (h : ∀ b ∈ l, b.val < 128) :
    (readLE64 l).1 < 9223372036854775808 := by
  simp only [readLE64]
  split
  · have h8 : (l.take 8).length = 8 := by
      rw [List.length_take]; omega
    have hlt := two_mul_fromLE_lt (l.take 8)
      (fun b hb => h b (List.take_subset 8 l hb))
    rw [h8] at hlt
    norm_num at hlt ⊢
    omega
  · norm_num

/-- The unread remainder `readLE64` returns is part of its input. -/
lemma readLE64_snd_subset (l : List Byte) : (readLE64 l).2 ⊆ l := by
  simp only [readLE64]
  split
  · exact List.drop_subset 8 l
  · intro b hb
    simp at hb

/-- Claim C2 counterexample: the 9-byte input with tag 0 that declares a
path length of 5 while zero bytes remain decodes successfully to a
command with all fields empty instead of failing with a MalformedCommand
error, and on the empty input `decodeCommand` panics (indexing the empty
slice `buf.Next(1)` returns) rather than failing gracefully — so decode
neither rejects overlong declared lengths nor survives empty input. -/
theorem decode_malformed_cex :
    decodeCommand (0 :: toLE64 5) = some ⟨0, [], [], [], 0⟩ ∧
    decodeCommand [] = none := by
  exact ⟨by decide, rfl⟩

/-- Claim C2 amended: `decodeCommand` never reports a malformed input.
On the empty input it panics; on any nonempty input whose bytes stay
below 128 (so every declared length stays below the 2^63 bound at which
the `uint64 → int` conversion would panic) it returns a command, whatever
the tag byte is and however the declared lengths compare to the bytes
remaining — overlong declared lengths are silently clamped to the bytes
remaining, and an unrecognized tag is returned as is, to be rejected
only later by `Apply`. -/
theorem decode_never_malformed :
    decodeCommand [] = none ∧
    ∀ (tag : Byte) (rest : List Byte), (∀ b ∈ rest, b.val < 128) →
      ∃ c, decodeCommand (tag :: rest) = some c ∧ c.Kind = tag := by
  refine ⟨rfl, fun tag rest h => ?_⟩
  have s1 : ∀ b ∈ (readLE64 rest).2, b.val < 128 :=
    fun b hb => h b (readLE64_snd_subset rest hb)
  have s1d : ∀ b ∈ (readLE64 rest).2.drop (readLE64 rest).1, b.val < 128 :=
    fun b hb => s1 b (List.drop_subset _ _ hb)
  have s2 : ∀ b ∈ (readLE64 ((readLE64 rest).2.drop (readLE64 rest).1)).2, b.val < 128 :=
    fun b hb => s1d b (readLE64_snd_subset _ hb)
  have s2d : ∀ b ∈ (readLE64 ((readLE64 rest).2.drop (readLE64 rest).1)).2.drop
      (readLE64 ((readLE64 rest).2.drop (readLE64 rest).1)).1, b.val < 128 :=
    fun b hb => s2 b (List.drop_subset _ _ hb)
  have h1 := readLE64_fst_lt_of_small rest h
  have h2 := readLE64_fst_lt_of_small _ s1d
  have h3 := readLE64_fst_lt_of_small _ s2d
  simp only [decodeCommand]
  rw [if_neg (not_le.mpr h1), if_neg (not_le.mpr h2), if_neg (not_le.mpr h3)]
  exact ⟨_, rfl, rfl⟩

/-- Witness for the amended C2 at the one-byte input holding only the
unrecognized tag 255: decode succeeds and keeps the tag. -/
theorem decode_never_malformed_witness :
    ∃ c, decodeCommand (255 :: ([] : List Byte)) = some c ∧ c.Kind = 255 :=
  decode_never_malformed.2 255 [] (by simp)

/-- Claim C3 counterexample: on a node whose leadership hint passed but
whose Propose (`hs.raft.Apply`) failed, the handler does return the 500
failure and pushes nothing — but the local content store is NOT
unchanged: starting from an empty store, after the failed write of body
[1] to path [97] the node holds content [1] under key [97], because
`createFileHandler` creates and writes the local content file before
calling Propose. -/
theorem create_propose_fail_cex :
    (createFileHandler true true [] (fun _ => true)
        ⟨emptyTable, emptyStore⟩ [97] [1]).status = 500 ∧
    (createFileHandler true true [] (fun _ => true)
        ⟨emptyTable, emptyStore⟩ [97] [1]).pushResults = [] ∧
    emptyStore [97] = none ∧
    (createFileHandler true true [] (fun _ => true)
        ⟨emptyTable, emptyStore⟩ [97] [1]).node.store [97] = some [1] := by
  refine ⟨rfl, rfl, rfl, ?_⟩
  simp [createFileHandler, storeInsert, base]

/-- Claim C3 amended: whenever Propose fails on a node whose leadership
hint passed, the gateway returns an explicit failure (HTTP 500), performs
no content push to any peer, and leaves the FileTable untouched — but the
content store is not unchanged: the handler has already created and
written the local content file (under the base key of the path) before
calling Propose, so the failed write leaves the new bytes in the local
content store. -/
theorem create_propose_fail (followers : List Nat) (reach : Nat → Bool)
    (node : Node) (filePath body : List Byte) :
    (createFileHandler true true followers reach node filePath body).status = 500 ∧
    (createFileHandler true true followers reach node filePath body).pushResults = [] ∧
    (createFileHandler true true followers reach node filePath body).node.table
      = node.table ∧
    (createFileHandler true true followers reach node filePath body).node.store
      = storeInsert (base filePath) body node.store := by
  refine ⟨rfl, rfl, rfl, rfl⟩

/-- Claim C4: a Create on the leader whose Propose succeeded returns 201
success to the client even when some follower pushes fail; the proposed
metadata command stands; the per-peer outcomes are recorded in the push
log; and no part of the client-facing result — status, message, node
state, proposed commands — depends on which peers were reachable. -/
theorem create_partial_replication (followers : List Nat)
    (reach reach2 : Nat → Bool) (node : Node) (filePath body : List Byte)
    (_hfail : ∃ f ∈ followers, reach f = false) :
    (createFileHandler true false followers reach node filePath body).status = 201 ∧
    (createFileHandler true false followers reach node filePath body).proposed
      = [encodeCommand ⟨CreateFile, filePath, [], [], (body.length : Int)⟩] ∧
    (createFileHandler true false followers reach node filePath body).pushResults
      = followers.map (fun f => (f, reach f)) ∧
    (createFileHandler true false followers reach node filePath body).status
      = (createFileHandler true false followers reach2 node filePath body).status ∧
    (createFileHandler true false followers reach node filePath body).msg
      = (createFileHandler true false followers reach2 node filePath body).msg ∧
    (createFileHandler true false followers reach node filePath body).node
      = (createFileHandler true false followers reach2 node filePath body).node ∧
    (createFileHandler true false followers reach node filePath body).proposed
      = (createFileHandler true false followers reach2 node filePath body).proposed := by
  exact ⟨rfl, rfl, rfl, rfl, rfl, rfl, rfl⟩

/-- Witness for C4: three followers with follower 3 unreachable; the
write still reports 201 and the outcome log records the one failure. -/
theorem create_partial_replication_witness :
    (createFileHandler true false [1, 2, 3] (fun f => decide (f ≠ 3))
        ⟨emptyTable, emptyStore⟩ [97] [1]).status = 201 ∧
    (createFileHandler true false [1, 2, 3] (fun f => decide (f ≠ 3))
        ⟨emptyTable, emptyStore⟩ [97] [1]).pushResults
      = [(1, true), (2, true), (3, false)] := by
  have h := create_partial_replication [1, 2, 3] (fun f => decide (f ≠ 3))
    (fun _ => true) ⟨emptyTable, emptyStore⟩ [97] [1]
    ⟨3, by simp, by simp⟩
  exact ⟨h.1, by rw [h.2.2.1]; rfl⟩

/-- Claim C5: a Create handled by a node whose leadership check reports
non-leader is rejected with the 503 leadership error; no command is
submitted to Propose, no content push happens, and the node state is
untouched. -/
theorem create_not_leader (proposeFails : Bool) (followers : List Nat)
    (reach : Nat → Bool) (node : Node) (filePath body : List Byte) :
    (createFileHandler false proposeFails followers reach node filePath body).status
      = 503 ∧
    (createFileHandler false proposeFails followers reach node filePath body).msg
      = "Not the leader - try another node" ∧
    (createFileHandler false proposeFails followers reach node filePath body).proposed
      = [] ∧
    (createFileHandler false proposeFails followers reach node filePath body).pushResults
      = [] ∧
    (createFileHandler false proposeFails followers reach node filePath body).node
      = node := by
  exact ⟨rfl, rfl, rfl, rfl, rfl⟩

/-- Claim C6: from the empty table, applying the committed sequence
Create("x",5), Delete("x"), Create("x",9) in delivery order leaves
exactly the record "x" → size 9 (the table maps each path to at most one
record, and "x" maps to the size-9 record written at clock 2); and the
permutation that applies the two creates before the delete yields a
deterministic result that differs at "x" — Apply is non-commutative.
The byte 120 is "x". -/
theorem apply_order_sensitive :
    lookupResult
        (applyList 0 emptyTable
          [encodeCommand ⟨CreateFile, [120], [], [], 5⟩,
           encodeCommand ⟨DeleteFile, [120], [], [], 0⟩,
           encodeCommand ⟨CreateFile, [120], [], [], 9⟩])
        [120] = some (some ⟨[120], 9, 2⟩) ∧
    ∃ other : List (List Byte),
      other.Perm
        [encodeCommand ⟨CreateFile, [120], [], [], 5⟩,
         encodeCommand ⟨DeleteFile, [120], [], [], 0⟩,
         encodeCommand ⟨CreateFile, [120], [], [], 9⟩] ∧
      lookupResult (applyList 0 emptyTable other) [120] ≠
        lookupResult
          (applyList 0 emptyTable
            [encodeCommand ⟨CreateFile, [120], [], [], 5⟩,
             encodeCommand ⟨DeleteFile, [120], [], [], 0⟩,
             encodeCommand ⟨CreateFile, [120], [], [], 9⟩])
          [120] := by
  refine ⟨by decide,
    [encodeCommand ⟨CreateFile, [120], [], [], 5⟩,
     encodeCommand ⟨CreateFile, [120], [], [], 9⟩,
     encodeCommand ⟨DeleteFile, [120], [], [], 0⟩], ?_, by decide⟩
  exact List.Perm.cons _ (List.Perm.swap _ _ _)

/-- Claim C7 counterexample: renaming a path to itself when it is absent
leaves the old path PRESENT, not absent: with "a" (byte 97) absent from
the empty table, applying RenameFile with old = new = "a" and size 10
succeeds and yields a table where "a" — the old path — is present with
size 10, contradicting the claim that after any rename-of-absent the old
path is absent. -/
theorem rename_absent_cex :
    emptyTable [97] = none ∧
    lookupResult
        (Apply 0 emptyTable (encodeCommand ⟨RenameFile, [], [97], [97], 10⟩))
        [97] = some (some ⟨[97], 10, 0⟩) := by
  exact ⟨rfl, by decide⟩

/-- Claim C7 amended: for every table state in which the old path is
absent and every rename whose old and new paths DIFFER, applying the
rename succeeds without error and yields a state where the new path is
present with the given size and a fresh timestamp and the old path is
absent. (When old and new coincide, the path ends up present, since the
code deletes the old key and then stores the new one.) -/
theorem rename_absent (now : Nat) (t : FileTable) (oldP newP : List Byte)
    (size : Int) (_habs : t oldP = none) (hne : oldP ≠ newP)
    (hlo : oldP.length < 9223372036854775808)
    (hln : newP.length < 9223372036854775808)
    (hs0 : 0 ≤ size) (hs1 : size < 9223372036854775808) :
    Apply now t (encodeCommand ⟨RenameFile, [], oldP, newP, size⟩) =
      some (Except.ok
        (tableStore newP ⟨newP, size, now⟩ (tableDelete oldP t))) ∧
    tableStore newP ⟨newP, size, now⟩ (tableDelete oldP t) newP
      = some ⟨newP, size, now⟩ ∧
    tableStore newP ⟨newP, size, now⟩ (tableDelete oldP t) oldP = none := by
  have hdec := decode_encodeCommand_append ⟨RenameFile, [], oldP, newP, size⟩ []
    (by simp) (by simpa using hlo) (by simpa using hln) hs0 hs1
  simp only [List.append_nil] at hdec
  refine ⟨?_, ?_, ?_⟩
  · rw [Apply, hdec]
    simp [CreateFile, DeleteFile, RenameFile]
  · simp [tableStore]
  · simp [tableStore, tableDelete, hne]

/-- Witness for the amended C7: renaming absent "a" (97) to "b" (98) with
size 10 on the empty table yields "b" present with size 10 and "a"
absent. -/
theorem rename_absent_witness :
    Apply 0 emptyTable (encodeCommand ⟨RenameFile, [], [97], [98], 10⟩) =
      some (Except.ok
        (tableStore [98] ⟨[98], 10, 0⟩ (tableDelete [97] emptyTable))) ∧
    tableStore [98] ⟨[98], 10, 0⟩ (tableDelete [97] emptyTable) [98]
      = some ⟨[98], 10, 0⟩ ∧
    tableStore [98] ⟨[98], 10, 0⟩ (tableDelete [97] emptyTable) [97] = none :=
  rename_absent 0 emptyTable [97] [98] 10 rfl (by decide)
    (by decide) (by decide) (by decide) (by decide)

/-- Claim C8: Fetch returns the metadata-level "File not found" exactly
when the path is absent from the FileTable; when the path is present but
no local content bytes exist under the base key, Fetch returns the
distinct "File content not found on this node" reply; and when both the
metadata and the local bytes exist, Fetch returns the local bytes. -/
theorem fetch_discrimination (t : FileTable) (s : ContentStore)
    (filePath : List Byte) :
    (getFileHandler t s filePath = FetchResult.httpError 404 "File not found"
      ↔ t filePath = none) ∧
    (∀ f, t filePath = some f → s (base filePath) = none →
      getFileHandler t s filePath
          = FetchResult.httpError 404 "File content not found on this node" ∧
      getFileHandler t s filePath
          ≠ FetchResult.httpError 404 "File not found") ∧
    (∀ f d, t filePath = some f → s (base filePath) = some d →
      getFileHandler t s filePath = FetchResult.content d) := by
  refine ⟨⟨fun h => ?_, fun h => ?_⟩, fun f hf hs => ?_, fun f d hf hs => ?_⟩
  · by_contra hne
    obtain ⟨f, hf⟩ := Option.ne_none_iff_exists.mp hne
    rw [getFileHandler, ← hf] at h
    cases hckey : s (base filePath) <;> rw [hckey] at h <;> simp at h
  · rw [getFileHandler, h]
  · rw [getFileHandler, hf, hs]
    exact ⟨rfl, by simp⟩
  · rw [getFileHandler, hf, hs]

/-- Witness for C8 at a table holding "k" (107) with no local content:
Fetch reports the content-level error, distinct from "File not found". -/
theorem fetch_discrimination_witness :
    getFileHandler (tableStore [107] ⟨[107], 1, 0⟩ emptyTable) emptyStore [107]
        = FetchResult.httpError 404 "File content not found on this node" ∧
    getFileHandler (tableStore [107] ⟨[107], 1, 0⟩ emptyTable) emptyStore [107]
        ≠ FetchResult.httpError 404 "File not found" :=
  (fetch_discrimination (tableStore [107] ⟨[107], 1, 0⟩ emptyTable)
    emptyStore [107]).2.1 ⟨[107], 1, 0⟩ (by simp [tableStore]) rfl

/-- Claim C9 counterexample: the content write is not atomic. With the
table holding "k" (byte 107) and the store holding prior content [1]
under key [107], one of the states a write of new content [2, 3] passes
through — the file truncated in place by `os.Create` before the body is
written — lets a concurrent Fetch observe bytes that are neither the
complete prior content nor the complete new content. -/
theorem atomic_visibility_cex :
    ∃ s ∈ contentWriteStates (storeInsert [107] [1] emptyStore) [107] [2, 3],
      getFileHandler (tableStore [107] ⟨[107], 1, 0⟩ emptyTable) s [107]
          ≠ FetchResult.content [1] ∧
      getFileHandler (tableStore [107] ⟨[107], 1, 0⟩ emptyTable) s [107]
          ≠ FetchResult.content [2, 3] := by
  refine ⟨storeInsert [107] [] (storeInsert [107] [1] emptyStore),
    List.Mem.tail _ (List.Mem.head _), ?_, ?_⟩ <;> decide

/-- Claim C9 amended: content writes truncate the destination file in
place (`os.Create`) and then write the body, instead of writing to a
temporary file and atomically renaming it over the destination; a
concurrent Fetch of a path whose metadata is present and whose prior
local content is nonempty can therefore observe the truncated
intermediate state — an empty byte sequence that is neither the complete
prior content nor the complete new content. -/
theorem content_write_not_atomic (t : FileTable) (s : ContentStore)
    (filePath : List Byte) (f : File) (oldC newC : List Byte)
    (hf : t filePath = some f) (_hold : s (base filePath) = some oldC)
    (h1 : oldC ≠ []) (h2 : newC ≠ []) :
    ∃ mid ∈ contentWriteStates s (base filePath) newC,
      getFileHandler t mid filePath = FetchResult.content [] ∧
      getFileHandler t mid filePath ≠ FetchResult.content oldC ∧
      getFileHandler t mid filePath ≠ FetchResult.content newC := by
  refine ⟨storeInsert (base filePath) [] s,
    List.Mem.tail _ (List.Mem.head _), ?_⟩
  have hmid : getFileHandler t (storeInsert (base filePath) [] s) filePath
      = FetchResult.content [] := by
    rw [getFileHandler, hf]
    simp [storeInsert]
  refine ⟨hmid, ?_, ?_⟩ <;> rw [hmid] <;> simp [h1.symm, h2.symm]

/-- Witness for the amended C9 at prior content [1] and new content
[2, 3] for path "k" (107). -/
theorem content_write_not_atomic_witness :
    ∃ mid ∈ contentWriteStates (storeInsert [107] [1] emptyStore)
        (base [107]) [2, 3],
      getFileHandler (tableStore [107] ⟨[107], 1, 0⟩ emptyTable) mid [107]
          = FetchResult.content [] ∧
      getFileHandler (tableStore [107] ⟨[107], 1, 0⟩ emptyTable) mid [107]
          ≠ FetchResult.content [1] ∧
      getFileHandler (tableStore [107] ⟨[107], 1, 0⟩ emptyTable) mid [107]
          ≠ FetchResult.content [2, 3] :=
  content_write_not_atomic (tableStore [107] ⟨[107], 1, 0⟩ emptyTable)
    (storeInsert [107] [1] emptyStore) [107] ⟨[107], 1, 0⟩ [1] [2, 3]
    (by simp [tableStore]) (by decide) (by decide) (by decide)

end DFS
